import Mathlib

/-
Verification of the data/service layer of app.py (ai-x-engineer-eval-bank):
a shallow embedding of the Record Store (Supabase REST adapter), the
question Sequencer, and the evaluation manager, together with theorems
settling the specification's claims about them.

Modelling conventions:
* Each table row is a structure mirroring the SQL schema in
  get_table_creation_sql (app.py lines 96-188); server-assigned
  timestamps are modelled by a logical clock (a Nat counter).
* The store state is a DB value holding the six tables as lists in
  insertion order, plus the SERIAL counters the embedded operations need.
* A server GET with an "order" parameter is modelled as a stable
  insertion sort of the filtered rows, so ties are broken by
  insertion/creation order, matching PostgREST row order for this app.
* Manager operations are embedded on their success path (every network
  call succeeds); the transport-level failure behaviour of
  supabase_request (app.py lines 20-59) is embedded separately, generic
  in the server, as the function supabase_request below.
* REAL scores are modelled as rationals; machine floats never overflow
  or round for the scores this app stores (integers 0..10).
-/

/-- Row of the questions table (schema lines 146-158 of app.py). -/
structure QuestionRow where
  question_id : Nat
  thread_id : Nat
  sequence_number : Int
  content : String
  reference_links : String
  created_by : String
  created_at : Nat
  updated_by : String
  updated_at : Nat
  deriving DecidableEq

/-- Row of the ai_personas table (schema lines 109-118 of app.py). -/
structure PersonaRow where
  persona_id : Nat
  name : String
  description : String
  created_by : String
  created_at : Nat
  updated_by : String
  updated_at : Nat
  deriving DecidableEq

/-- Row of the question_categories table (schema lines 120-131 of app.py). -/
structure CategoryRow where
  category_id : Nat
  persona_id : Nat
  name : String
  description : String
  created_by : String
  created_at : Nat
  updated_by : String
  updated_at : Nat
  deriving DecidableEq

/-- Row of the question_threads table (schema lines 133-144 of app.py). -/
structure ThreadRow where
  thread_id : Nat
  category_id : Nat
  name : String
  description : String
  created_by : String
  created_at : Nat
  updated_by : String
  updated_at : Nat
  deriving DecidableEq

/-- Row of the answers table (schema lines 160-172 of app.py). -/
structure AnswerRow where
  answer_id : Nat
  question_id : Nat
  is_ai_generated : Bool
  content : String
  metadata : String
  created_by : String
  created_at : Nat
  updated_by : String
  updated_at : Nat
  deriving DecidableEq

/-- Row of the evaluations table (schema lines 174-187 of app.py). -/
structure EvaluationRow where
  evaluation_id : Nat
  answer_id : Nat
  dimension : String
  score : Rat
  comments : String
  evaluator : String
  created_by : String
  created_at : Nat
  updated_by : String
  updated_at : Nat
  deriving DecidableEq

/-- The store state: the six tables in insertion order, the SERIAL
counters needed by the embedded insert operations, and a logical clock
standing in for server timestamps. -/
structure DB where
  personas : List PersonaRow
  categories : List CategoryRow
  threads : List ThreadRow
  questions : List QuestionRow
  answers : List AnswerRow
  evaluations : List EvaluationRow
  next_question_id : Nat
  next_evaluation_id : Nat
  clock : Nat
  deriving DecidableEq

/-- A store with all six tables empty and fresh SERIAL counters. -/
def emptyDB : DB :=
  { personas := [], categories := [], threads := [], questions := [],
    answers := [], evaluations := [],
    next_question_id := 1, next_evaluation_id := 1, clock := 0 }

/-- Outcome of one HTTP request issued by the requests library:
either a response with a status code and a parsed body, or a raised
transport exception. -/
inductive HttpResult (α : Type) where
  | success (status : Nat) (body : α)
  | exn (msg : String)
  deriving DecidableEq

/-- What a supabase_request call produces: the value returned to the
caller (None on failure), the st.error messages shown, how many network
calls were issued, and the resulting server state. -/
structure TransportResult (σ α : Type) where
  result : Option α
  errors : List String
  networkCalls : Nat
  state : σ

/-- Dispatch of one actual HTTP call inside the try block of
supabase_request: an exception is caught and reported as None; a status
of 400 or above is reported as None; otherwise the parsed body is
returned. Mirrors app.py lines 52-59. -/
def handleResponse {σ α : Type} (r : HttpResult α × σ) : TransportResult σ α :=
  match r with
  | (HttpResult.exn msg, s) =>
      { result := none, errors := ["Request error: " ++ msg], networkCalls := 1, state := s }
  | (HttpResult.success status body, s) =>
      if 400 ≤ status then
        { result := none, errors := ["API Error"], networkCalls := 1, state := s }
      else
        { result := some body, errors := [], networkCalls := 1, state := s }

/-- The method.lower() call of supabase_request: Python str.lower on the
ASCII method names this app passes. -/
def pyLower (s : String) : String := String.mk (s.data.map Char.toLower)

/-- Shallow embedding of supabase_request (app.py lines 20-59), generic
in the server: method dispatch, the missing-filter guards on patch and
delete, the invalid-method branch, and response handling. The url,
headers and request payload do not affect this control flow and are
abstracted into the doRequest server function; params is the list of
query parameters (the empty list models a missing/empty params dict). -/
def supabase_request {σ α : Type} (method : String) (params : List (String × String))
    (doRequest : σ → HttpResult α × σ) (s : σ) : TransportResult σ α :=
  if pyLower method == "get" then handleResponse (doRequest s)
  else if pyLower method == "post" then handleResponse (doRequest s)
  else if pyLower method == "put" then handleResponse (doRequest s)
  else if pyLower method == "patch" then
    if params.isEmpty then
      { result := none, errors := ["Update requires a WHERE clause"], networkCalls := 0, state := s }
    else handleResponse (doRequest s)
  else if pyLower method == "delete" then
    if params.isEmpty then
      { result := none, errors := ["Delete requires a WHERE clause"], networkCalls := 0, state := s }
    else handleResponse (doRequest s)
  else
    { result := none, errors := ["Invalid method: " ++ method], networkCalls := 0, state := s }

namespace PersonaManager

/-- PersonaManager.get_all (app.py lines 204-207): GET ai_personas with
order=name; the server returns all rows sorted by name (stable). -/
def get_all (db : DB) : List PersonaRow :=
  List.insertionSort (fun a b => a.name ≤ b.name) db.personas

/-- PersonaManager.get_by_id (app.py lines 209-212): GET ai_personas
filtered by persona_id=eq.{id}; an empty result set becomes an empty
DataFrame. -/
def get_by_id (db : DB) (persona_id : Nat) : List PersonaRow :=
  db.personas.filter (fun p => p.persona_id == persona_id)

end PersonaManager

namespace CategoryManager

/-- CategoryManager.get_by_persona (app.py lines 242-246): GET
question_categories filtered by persona_id with order=name. -/
def get_by_persona (db : DB) (persona_id : Nat) : List CategoryRow :=
  List.insertionSort (fun a b => a.name ≤ b.name)
    (db.categories.filter (fun c => c.persona_id == persona_id))

end CategoryManager

namespace ThreadManager

/-- ThreadManager.get_by_category (app.py lines 285-289): GET
question_threads filtered by category_id with order=name. -/
def get_by_category (db : DB) (category_id : Nat) : List ThreadRow :=
  List.insertionSort (fun a b => a.name ≤ b.name)
    (db.threads.filter (fun t => t.category_id == category_id))

end ThreadManager

namespace QuestionManager

/-- The questions of one thread in table (insertion) order: the row set
selected by the server for thread_id=eq.{thread_id}. -/
def threadRows (db : DB) (thread_id : Nat) : List QuestionRow :=
  db.questions.filter (fun q => q.thread_id == thread_id)

/-- QuestionManager.get_by_thread (app.py lines 338-342): GET questions
filtered by thread_id with order=sequence_number (stable, so ties are
broken by insertion/creation order). -/
def get_by_thread (db : DB) (thread_id : Nat) : List QuestionRow :=
  List.insertionSort (fun a b => a.sequence_number ≤ b.sequence_number)
    (threadRows db thread_id)

/-- QuestionManager.get_by_id (app.py lines 344-348): GET questions
filtered by question_id=eq.{id}. -/
def get_by_id (db : DB) (question_id : Nat) : List QuestionRow :=
  db.questions.filter (fun q => q.question_id == question_id)

/-- The server effect of PATCH questions?question_id=eq.{qid} with data
{sequence_number: n}, as issued by reorder (app.py lines 384-386). -/
def patchSeq (l : List QuestionRow) (question_id : Nat) (n : Int) : List QuestionRow :=
  l.map (fun q => if q.question_id == question_id then { q with sequence_number := n } else q)

/-- The renumbering loop of reorder (app.py lines 382-386): walk the
fetched rows with a 1-based index, patching every row whose stored
sequence_number differs from its index; w counts the update calls
issued. -/
def reorderLoop : DB → Nat → List QuestionRow → Nat → DB × Nat
  | db, _, [], w => (db, w)
  | db, idx, row :: rest, w =>
    if row.sequence_number ≠ (idx : Int) then
      reorderLoop { db with questions := patchSeq db.questions row.question_id (idx : Int) }
        (idx + 1) rest (w + 1)
    else
      reorderLoop db (idx + 1) rest w

/-- QuestionManager.reorder (app.py lines 376-386): fetch the thread's
questions in sequence order; if none, return; otherwise run the
renumbering loop. The second component counts the update calls issued. -/
def reorder (db : DB) (thread_id : Nat) : DB × Nat :=
  let questions := get_by_thread db thread_id
  if questions.isEmpty then (db, 0)
  else reorderLoop db 1 questions 0

/-- QuestionManager.create (app.py lines 315-336): when no
sequence_number is supplied, fetch the thread's questions ordered by
sequence_number descending with limit 1 and use max+1 (or 1 for an
empty thread); POST the row (the server assigns question_id and
created_at); on success run reorder on the thread and return the new
key. The auto-sequence fetch (lines 317-322) is the function nextSeq. -/
def nextSeq (db : DB) (thread_id : Nat) : Int :=
  match (List.insertionSort (fun a b : QuestionRow => b.sequence_number ≤ a.sequence_number)
          (threadRows db thread_id)).head? with
  | some r => r.sequence_number + 1
  | none => 1

def create (db : DB) (thread_id : Nat) (content reference_links created_by : String)
    (sequence_number : Option Int) : Option Nat × DB :=
  let seq : Int :=
    match sequence_number with
    | some s => s
    | none => nextSeq db thread_id
  let qid := db.next_question_id
  let row : QuestionRow :=
    { question_id := qid, thread_id := thread_id, sequence_number := seq,
      content := content, reference_links := reference_links,
      created_by := created_by, created_at := db.clock,
      updated_by := "", updated_at := db.clock }
  let db1 : DB :=
    { db with questions := db.questions ++ [row],
              next_question_id := qid + 1, clock := db.clock + 1 }
  (some qid, (reorder db1 thread_id).1)

/-- QuestionManager.update (app.py lines 350-366): PATCH questions by
question_id, always setting content, updated_by and updated_at, and
setting reference_links and sequence_number only when supplied. It
issues no renumbering pass. -/
def update (db : DB) (question_id : Nat) (content : String)
    (reference_links : Option String) (updated_by : String)
    (sequence_number : Option Int) : DB :=
  { db with questions := db.questions.map (fun q =>
      if q.question_id == question_id then
        { q with content := content,
                 updated_by := updated_by,
                 updated_at := db.clock,
                 reference_links := reference_links.getD q.reference_links,
                 sequence_number := sequence_number.getD q.sequence_number }
      else q) }

/-- QuestionManager.delete (app.py lines 368-374): fetch the question by
id; if it exists, DELETE it and run reorder on its thread; otherwise do
nothing. The second component counts the write (delete plus update)
calls issued. -/
def delete (db : DB) (question_id : Nat) : DB × Nat :=
  match get_by_id db question_id with
  | [] => (db, 0)
  | q :: _ =>
    let db1 : DB :=
      { db with questions := db.questions.filter (fun r => r.question_id != question_id) }
    let r := reorder db1 q.thread_id
    (r.1, r.2 + 1)

end QuestionManager

namespace AnswerManager

/-- AnswerManager.get_by_question (app.py lines 403-407): GET answers
filtered by question_id with order=created_at. -/
def get_by_question (db : DB) (question_id : Nat) : List AnswerRow :=
  List.insertionSort (fun a b => a.created_at ≤ b.created_at)
    (db.answers.filter (fun a => a.question_id == question_id))

end AnswerManager

namespace EvaluationManager

/-- EvaluationManager.create (app.py lines 438-451): POST the evaluation
row as given — no validation of the dimension field is performed — and
return the server-assigned key. -/
def create (db : DB) (answer_id : Nat) (dimension : String) (score : Rat)
    (comments evaluator created_by : String) : Option Nat × DB :=
  let eid := db.next_evaluation_id
  let row : EvaluationRow :=
    { evaluation_id := eid, answer_id := answer_id, dimension := dimension,
      score := score, comments := comments, evaluator := evaluator,
      created_by := created_by, created_at := db.clock,
      updated_by := "", updated_at := db.clock }
  (some eid,
   { db with evaluations := db.evaluations ++ [row],
             next_evaluation_id := eid + 1, clock := db.clock + 1 })

/-- EvaluationManager.get_by_answer (app.py lines 453-457): GET
evaluations filtered by answer_id with order=dimension. -/
def get_by_answer (db : DB) (answer_id : Nat) : List EvaluationRow :=
  List.insertionSort (fun a b => a.dimension ≤ b.dimension)
    (db.evaluations.filter (fun e => e.answer_id == answer_id))

/-- EvaluationManager.get_dimensions_for_answer (app.py lines 459-463):
GET evaluations filtered by answer_id selecting only the dimension
column, with no ordering parameter, so rows come back in table order. -/
def get_dimensions_for_answer (db : DB) (answer_id : Nat) : List String :=
  (db.evaluations.filter (fun e => e.answer_id == answer_id)).map (fun e => e.dimension)

/-- EvaluationManager.update (app.py lines 471-492): PATCH evaluations
by evaluation_id, always setting updated_by and updated_at, and setting
dimension, score, comments and evaluator only when supplied. No
validation of the dimension field is performed. -/
def update (db : DB) (evaluation_id : Nat) (dimension : Option String) (score : Option Rat)
    (comments evaluator : Option String) (updated_by : String) : DB :=
  { db with evaluations := db.evaluations.map (fun e =>
      if e.evaluation_id == evaluation_id then
        { e with updated_by := updated_by,
                 updated_at := db.clock,
                 dimension := dimension.getD e.dimension,
                 score := score.getD e.score,
                 comments := comments.getD e.comments,
                 evaluator := evaluator.getD e.evaluator }
      else e) }

end EvaluationManager

/-- Modelled from the spec: the fixed enumerated set of evaluation
dimensions, in fixed-set order. This list appears in no function of
src/app.py (that variant of the source allows free-text dimensions);
the spec's Dimension Validator section names these seven members. -/
def FIXED_DIMENSIONS : List String :=
  ["Accuracy/Correctness", "Relevance", "Completeness", "Reasoning",
   "Hallucination", "Verbose", "Additional Comments"]

/-- Modelled from the spec: get_missing_dimensions_for_answer is absent
from src/app.py; per the spec it is the set-difference between the
fixed dimension set and the dimensions already recorded for the answer,
kept in fixed-set order, computed over the source's
get_dimensions_for_answer. -/
def get_missing_dimensions_for_answer (db : DB) (answer_id : Nat) : List String :=
  FIXED_DIMENSIONS.filter
    (fun d => ¬ d ∈ EvaluationManager.get_dimensions_for_answer db answer_id)

/-- Store well-formedness for the questions table: the server-assigned
question keys are pairwise distinct and below the SERIAL counter. -/
def WFq (db : DB) : Prop :=
  (db.questions.map (fun q => q.question_id)).Nodup
  ∧ ∀ q ∈ db.questions, q.question_id < db.next_question_id

instance : DecidablePred WFq := fun db => by
  unfold WFq; infer_instance

/-- The thread's stored sequence numbers, read back in sequence order,
are exactly the dense run 1..N. -/
def denseThread (db : DB) (thread_id : Nat) : Prop :=
  (QuestionManager.get_by_thread db thread_id).map (fun q => q.sequence_number)
    = (List.range (QuestionManager.get_by_thread db thread_id).length).map
        (fun i : Nat => (i : Int) + 1)

instance : ∀ db tid, Decidable (denseThread db tid) := fun db tid => by
  unfold denseThread; infer_instance

/-- Rewrite the rows of a list with consecutive sequence numbers
starting at n, keeping their order: the net effect of one reorder pass
on the fetched rows. -/
def renumber : Int → List QuestionRow → List QuestionRow
  | _, [] => []
  | n, q :: qs => { q with sequence_number := n } :: renumber (n + 1) qs

/-- The composite effect on one row of the update calls the reorder
loop issues for snapshot qs starting at index k: the first snapshot row
with a matching key sets the sequence number to its index. -/
def applyQs : Int → List QuestionRow → QuestionRow → QuestionRow
  | _, [], q => q
  | k, r :: rs, q =>
    if q.question_id == r.question_id then { q with sequence_number := k }
    else applyQs (k + 1) rs q

/-- How many rows of the snapshot differ from their 1-based index
counted from k: the number of update calls one reorder pass issues. -/
def countMism : Nat → List QuestionRow → Nat
  | _, [] => 0
  | k, r :: rs => (if r.sequence_number ≠ (k : Int) then 1 else 0) + countMism (k + 1) rs

/-- A question row with given key, thread and sequence number and blank
text fields: concrete test data. -/
def mkQ (id tid : Nat) (seq : Int) : QuestionRow :=
  { question_id := id, thread_id := tid, sequence_number := seq, content := "q",
    reference_links := "", created_by := "", created_at := 0,
    updated_by := "", updated_at := 0 }

/-- An evaluation row with given key, answer and dimension: concrete
test data. -/
def mkEval (id a : Nat) (dim : String) (score : Rat) : EvaluationRow :=
  { evaluation_id := id, answer_id := a, dimension := dim, score := score,
    comments := "", evaluator := "", created_by := "", created_at := 0,
    updated_by := "", updated_at := 0 }

/-- A store with one thread of three questions with scattered sequence
numbers. -/
def dbEx1 : DB :=
  { emptyDB with questions := [mkQ 1 1 5, mkQ 2 1 2, mkQ 3 1 9], next_question_id := 4 }

/-- A store with one thread of one question, correctly numbered. -/
def dbC3 : DB :=
  { emptyDB with questions := [mkQ 1 1 1], next_question_id := 2 }

/-- A store in which answer 1 carries evaluations for two of the seven
fixed dimensions. -/
def dbTwoOfSeven : DB :=
  { emptyDB with evaluations := [mkEval 1 1 "Relevance" 7, mkEval 2 1 "Reasoning" 6],
                 next_evaluation_id := 3 }

/-! ### Generic list lemmas: stable sorting, filtering, distinct keys -/

/-- Inserting an element that is below every element of a list places it
at the head. -/
theorem orderedInsert_of_forall {α : Type} (r : α → α → Prop) [DecidableRel r] (x : α) :
    ∀ t : List α, (∀ z ∈ t, r x z) → List.orderedInsert r x t = x :: t
  | [], _ => rfl
  | z :: t, h => by
    unfold List.orderedInsert
    rw [if_pos (h z (List.mem_cons_self z t))]

/-- Filtering commutes with ordered insertion into a sorted list. -/
theorem filter_orderedInsert {α : Type} (r : α → α → Prop) [DecidableRel r] [IsTrans α r]
    (p : α → Bool) (x : α) :
    ∀ s : List α, List.Sorted r s →
      (List.orderedInsert r x s).filter p
        = if p x then List.orderedInsert r x (s.filter p) else s.filter p
  | [], _ => by
    by_cases hx : p x <;> simp [List.orderedInsert, hx]
  | y :: s, hs => by
    by_cases hxy : r x y
    · rw [List.orderedInsert_of_le r s hxy]
      by_cases hx : p x
      · rw [if_pos hx, List.filter_cons, if_pos hx]
        have hall : ∀ z ∈ (y :: s).filter p, r x z := by
          intro z hz
          rcases List.mem_cons.mp (List.mem_of_mem_filter hz) with rfl | hzs
          · exact hxy
          · exact Trans.trans hxy (List.rel_of_sorted_cons hs z hzs)
        rw [orderedInsert_of_forall r x _ hall]
      · rw [if_neg hx, List.filter_cons, if_neg hx]
    · have hins : List.orderedInsert r x (y :: s) = y :: List.orderedInsert r x s := by
        simp only [List.orderedInsert]
        rw [if_neg hxy]
      rw [hins]
      by_cases hy : p y
      · rw [List.filter_cons, if_pos hy, List.filter_cons, if_pos hy,
          filter_orderedInsert r p x s hs.of_cons]
        by_cases hx : p x
        · rw [if_pos hx, if_pos hx]
          have hins2 : List.orderedInsert r x (y :: s.filter p)
              = y :: List.orderedInsert r x (s.filter p) := by
            simp only [List.orderedInsert]
            rw [if_neg hxy]
          rw [hins2]
        · rw [if_neg hx, if_neg hx]
      · rw [List.filter_cons, if_neg hy, List.filter_cons, if_neg hy,
          filter_orderedInsert r p x s hs.of_cons]

/-- Filtering commutes with the stable insertion sort. -/
theorem filter_insertionSort {α : Type} (r : α → α → Prop) [DecidableRel r]
    [IsTotal α r] [IsTrans α r] (p : α → Bool) :
    ∀ l : List α, (List.insertionSort r l).filter p = List.insertionSort r (l.filter p)
  | [] => rfl
  | x :: l => by
    show (List.orderedInsert r x (List.insertionSort r l)).filter p = _
    rw [filter_orderedInsert r p x _ (List.sorted_insertionSort r l),
      filter_insertionSort r p l, List.filter_cons]
    by_cases hx : p x
    · rw [if_pos hx, if_pos hx]
      rfl
    · rw [if_neg hx, if_neg hx]

/-- A sort by a key function produces a list sorted under that key. -/
theorem sorted_by_key {α β : Type} [LinearOrder β] (f : α → β) (l : List α) :
    List.Sorted (fun a b => f a ≤ f b) (List.insertionSort (fun a b => f a ≤ f b) l) := by
  letI : IsTotal α (fun a b => f a ≤ f b) := ⟨fun a b => le_total (f a) (f b)⟩
  letI : IsTrans α (fun a b => f a ≤ f b) := ⟨fun a b c hab hbc => le_trans hab hbc⟩
  exact List.sorted_insertionSort _ l

/-- A list weakly sorted under a key whose key values are distinct is
strictly sorted under that key. -/
theorem pairwise_lt_of_le_nodup {α β : Type} [LinearOrder β] (f : α → β) (l : List α)
    (hle : l.Pairwise (fun a b => f a ≤ f b)) (hn : (l.map f).Nodup) :
    l.Pairwise (fun a b => f a < f b) := by
  have hne : l.Pairwise (fun a b => f a ≠ f b) := List.pairwise_map.mp hn
  exact (hle.and hne).imp (fun h => lt_of_le_of_ne h.1 h.2)

/-- Two lists strictly sorted under a key that are permutations of each
other are equal. -/
theorem eq_of_perm_sorted_keys {α β : Type} [LinearOrder β] (f : α → β) (l₁ l₂ : List α)
    (hp : List.Perm l₁ l₂)
    (h₁ : l₁.Pairwise (fun a b => f a < f b)) (h₂ : l₂.Pairwise (fun a b => f a < f b)) :
    l₁ = l₂ := by
  haveI : IsAntisymm α (fun a b => f a < f b) :=
    ⟨fun a b hab hba => absurd (lt_trans hab hba) (lt_irrefl _)⟩
  exact List.eq_of_perm_of_sorted hp h₁ h₂

/-- Two filters of the same list commute. -/
theorem filter_swap {α : Type} (p q : α → Bool) (l : List α) :
    (l.filter p).filter q = (l.filter q).filter p := by
  rw [List.filter_filter, List.filter_filter]
  exact List.filter_congr (fun a _ => Bool.and_comm (q a) (p a))

/-! ### Properties of the reorder-loop building blocks -/

/-- The loop's update calls never change a row's key. -/
theorem applyQs_question_id : ∀ (k : Int) (qs : List QuestionRow) (q : QuestionRow),
    (applyQs k qs q).question_id = q.question_id
  | _, [], _ => rfl
  | k, r :: rs, q => by
    unfold applyQs
    by_cases h : (q.question_id == r.question_id) = true
    · rw [if_pos h]
    · rw [if_neg h]
      exact applyQs_question_id (k + 1) rs q

/-- The loop's update calls never change a row's thread. -/
theorem applyQs_thread_id : ∀ (k : Int) (qs : List QuestionRow) (q : QuestionRow),
    (applyQs k qs q).thread_id = q.thread_id
  | _, [], _ => rfl
  | k, r :: rs, q => by
    unfold applyQs
    by_cases h : (q.question_id == r.question_id) = true
    · rw [if_pos h]
    · rw [if_neg h]
      exact applyQs_thread_id (k + 1) rs q

/-- A row whose key appears nowhere in the snapshot is untouched. -/
theorem applyQs_not_mem : ∀ (k : Int) (qs : List QuestionRow) (q : QuestionRow),
    (∀ r ∈ qs, q.question_id ≠ r.question_id) → applyQs k qs q = q
  | _, [], _, _ => rfl
  | k, r :: rs, q, h => by
    have hne : (q.question_id == r.question_id) = false :=
      beq_eq_false_iff_ne.mpr (h r (List.mem_cons_self r rs))
    unfold applyQs
    rw [hne]
    simp only [Bool.false_eq_true, if_false]
    exact applyQs_not_mem (k + 1) rs q (fun r' hr' => h r' (List.mem_cons_of_mem r hr'))

/-- Setting the sequence number to its current value changes nothing. -/
theorem setSeq_self (q : QuestionRow) (n : Int) (h : q.sequence_number = n) :
    { q with sequence_number := n } = q := by
  cases q
  simp_all

/-- Renumbering keeps the keys, in order. -/
theorem renumber_map_qid : ∀ (k : Int) (qs : List QuestionRow),
    (renumber k qs).map (fun q => q.question_id) = qs.map (fun q => q.question_id)
  | _, [] => rfl
  | k, q :: qs => by
    simp only [renumber, List.map_cons, renumber_map_qid (k + 1) qs]

/-- Renumbering keeps the length. -/
theorem renumber_length : ∀ (k : Int) (qs : List QuestionRow),
    (renumber k qs).length = qs.length
  | _, [] => rfl
  | k, q :: qs => by
    simp only [renumber, List.length_cons, renumber_length (k + 1) qs]

/-- The sequence numbers after renumbering from k are the run
k, k+1, ..., k+N-1. -/
theorem renumber_map_seq : ∀ (k : Int) (qs : List QuestionRow),
    (renumber k qs).map (fun q => q.sequence_number)
      = (List.range qs.length).map (fun i : Nat => (i : Int) + k)
  | _, [] => rfl
  | k, q :: qs => by
    have ih := renumber_map_seq (k + 1) qs
    simp only [renumber, List.map_cons, List.length_cons, ih, List.range_succ_eq_map,
      List.map_map]
    congr 1
    · simp
    · refine List.map_congr_left (fun i _ => ?_)
      simp only [Function.comp_apply]
      push_cast
      ring

/-- Every sequence number assigned by renumber from k is at least k. -/
theorem renumber_seq_ge : ∀ (k : Int) (qs : List QuestionRow) (q : QuestionRow),
    q ∈ renumber k qs → k ≤ q.sequence_number
  | k, [], q, h => absurd h (List.not_mem_nil q)
  | k, r :: rs, q, h => by
    rcases List.mem_cons.mp h with rfl | h'
    · exact le_refl _
    · exact le_trans (by omega) (renumber_seq_ge (k + 1) rs q h')

/-- Renumbered rows carry strictly increasing sequence numbers. -/
theorem renumber_pairwise_lt : ∀ (k : Int) (qs : List QuestionRow),
    (renumber k qs).Pairwise (fun a b => a.sequence_number < b.sequence_number)
  | _, [] => List.Pairwise.nil
  | k, r :: rs => by
    refine List.Pairwise.cons (fun b hb => ?_) (renumber_pairwise_lt (k + 1) rs)
    have := renumber_seq_ge (k + 1) rs b hb
    show ({ r with sequence_number := k }).sequence_number < b.sequence_number
    simp only []
    omega

/-- Renumbering twice is the same as renumbering once. -/
theorem renumber_renumber : ∀ (k j : Int) (qs : List QuestionRow),
    renumber k (renumber j qs) = renumber k qs
  | _, _, [] => rfl
  | k, j, q :: qs => by
    simp only [renumber, renumber_renumber (k + 1) (j + 1) qs]

/-- After a renumbering from k, a second pass counting from k finds no
mismatches. -/
theorem countMism_renumber : ∀ (k : Nat) (qs : List QuestionRow),
    countMism k (renumber (k : Int) qs) = 0
  | _, [] => rfl
  | k, q :: qs => by
    have ih := countMism_renumber (k + 1) qs
    push_cast at ih
    simp only [renumber, countMism]
    rw [if_neg (by simp)]
    simpa using ih


/-- Unfolding equation of applyQs when the head's key matches. -/
theorem applyQs_cons_pos (k : Int) (r : QuestionRow) (rs : List QuestionRow) (q : QuestionRow)
    (h : q.question_id = r.question_id) :
    applyQs k (r :: rs) q = { q with sequence_number := k } := by
  simp only [applyQs, beq_iff_eq.mpr h, if_true]

/-- Unfolding equation of applyQs when the head's key differs. -/
theorem applyQs_cons_neg (k : Int) (r : QuestionRow) (rs : List QuestionRow) (q : QuestionRow)
    (h : q.question_id ≠ r.question_id) :
    applyQs k (r :: rs) q = applyQs (k + 1) rs q := by
  simp only [applyQs, beq_eq_false_iff_ne.mpr h, Bool.false_eq_true, if_false]

/-- Applying the loop's updates to the snapshot itself renumbers it:
each snapshot row receives its own 1-based position (counted from k). -/
theorem map_applyQs_self : ∀ (k : Int) (qs : List QuestionRow),
    (qs.map (fun q => q.question_id)).Nodup →
    qs.map (applyQs k qs) = renumber k qs
  | _, [], _ => rfl
  | k, r :: rs, h => by
    have hrid : r.question_id ∉ rs.map (fun q => q.question_id) :=
      (List.nodup_cons.mp h).1
    have htail : (rs.map (fun q => q.question_id)).Nodup := (List.nodup_cons.mp h).2
    simp only [List.map_cons, renumber]
    congr 1
    · exact applyQs_cons_pos k r rs r rfl
    · rw [← map_applyQs_self (k + 1) rs htail]
      refine List.map_congr_left (fun x hx => ?_)
      refine applyQs_cons_neg k r rs x (fun hEq => hrid ?_)
      rw [← hEq]
      exact List.mem_map_of_mem _ hx

/-- The number of update calls the loop issues is the mismatch count of
the snapshot; it does not depend on the store. -/
theorem reorderLoop_writes : ∀ (qs : List QuestionRow) (db : DB) (k w : Nat),
    (QuestionManager.reorderLoop db k qs w).2 = w + countMism k qs
  | [], db, k, w => by simp [QuestionManager.reorderLoop, countMism]
  | q :: qs, db, k, w => by
    by_cases h : q.sequence_number ≠ (k : Int)
    · simp only [QuestionManager.reorderLoop, countMism, if_pos h]
      rw [reorderLoop_writes qs _ (k + 1) (w + 1)]
      omega
    · simp only [QuestionManager.reorderLoop, countMism, if_neg h]
      rw [reorderLoop_writes qs db (k + 1) w]
      omega

/-- The loop never touches the SERIAL counter. -/
theorem reorderLoop_next : ∀ (qs : List QuestionRow) (db : DB) (k w : Nat),
    (QuestionManager.reorderLoop db k qs w).1.next_question_id = db.next_question_id
  | [], _, _, _ => rfl
  | q :: qs, db, k, w => by
    by_cases h : q.sequence_number ≠ (k : Int)
    · simp only [QuestionManager.reorderLoop, if_pos h]
      rw [reorderLoop_next qs _ (k + 1) (w + 1)]
    · simp only [QuestionManager.reorderLoop, if_neg h]
      rw [reorderLoop_next qs db (k + 1) w]

/-- Running the loop over a snapshot with distinct keys whose rows agree
with the live table rewrites the questions table pointwise: every row
receives the update of the first (unique) snapshot entry carrying its
key. -/
theorem reorderLoop_questions : ∀ (qs : List QuestionRow) (db : DB) (k w : Nat),
    (qs.map (fun q => q.question_id)).Nodup →
    (∀ r ∈ qs, ∀ q ∈ db.questions, q.question_id = r.question_id →
        q.sequence_number = r.sequence_number) →
    (QuestionManager.reorderLoop db k qs w).1.questions
      = db.questions.map (applyQs (k : Int) qs)
  | [], db, k, w, _, _ => by
    show db.questions = db.questions.map (applyQs (k : Int) [])
    exact (List.map_id' db.questions).symm
  | r :: rs, db, k, w, h1, h2 => by
    have hrid : r.question_id ∉ rs.map (fun q => q.question_id) :=
      (List.nodup_cons.mp h1).1
    have h1' : (rs.map (fun q => q.question_id)).Nodup := (List.nodup_cons.mp h1).2
    have hcast : (((k : Nat) + 1 : Nat) : Int) = (k : Int) + 1 := by push_cast; ring
    by_cases hc : r.sequence_number ≠ (k : Int)
    · simp only [QuestionManager.reorderLoop, if_pos hc]
      have h2' : ∀ r' ∈ rs, ∀ q ∈ (QuestionManager.patchSeq db.questions r.question_id
          (k : Int)), q.question_id = r'.question_id →
          q.sequence_number = r'.sequence_number := by
        intro r' hr' q hq heq
        rcases List.mem_map.mp hq with ⟨q0, hq0, rfl⟩
        by_cases hm : q0.question_id = r.question_id
        · exfalso
          rw [if_pos (beq_iff_eq.mpr hm)] at heq
          have hqe : q0.question_id = r'.question_id := heq
          apply hrid
          rw [← hm, hqe]
          exact List.mem_map_of_mem _ hr'
        · rw [if_neg (by simpa using hm)] at heq ⊢
          exact h2 r' (List.mem_cons_of_mem r hr') q0 hq0 heq
      rw [reorderLoop_questions rs _ (k + 1) (w + 1) h1' h2']
      show (QuestionManager.patchSeq db.questions r.question_id (k : Int)).map _ = _
      unfold QuestionManager.patchSeq
      rw [List.map_map]
      refine List.map_congr_left (fun q hq => ?_)
      simp only [Function.comp_apply]
      by_cases hm : q.question_id = r.question_id
      · rw [if_pos (beq_iff_eq.mpr hm), hcast]
        have hnm : ∀ r' ∈ rs,
            ({ q with sequence_number := (k : Int) }).question_id ≠ r'.question_id := by
          intro r' hr' hEq
          have hq1 : q.question_id = r'.question_id := hEq
          apply hrid
          rw [← hm, hq1]
          exact List.mem_map_of_mem _ hr'
        rw [applyQs_not_mem _ rs _ hnm, applyQs_cons_pos (k : Int) r rs q hm]
      · rw [if_neg (by simpa using hm), hcast, applyQs_cons_neg (k : Int) r rs q hm]
    · have hk : r.sequence_number = (k : Int) := not_not.mp hc
      simp only [QuestionManager.reorderLoop, if_neg hc]
      rw [reorderLoop_questions rs db (k + 1) w h1'
        (fun r' hr' q hq heq => h2 r' (List.mem_cons_of_mem r hr') q hq heq)]
      refine List.map_congr_left (fun q hq => ?_)
      by_cases hm : q.question_id = r.question_id
      · have hqe : q.sequence_number = (k : Int) := by
          rw [h2 r (List.mem_cons_self r rs) q hq hm, hk]
        have hnm : ∀ r' ∈ rs, q.question_id ≠ r'.question_id := by
          intro r' hr' hEq
          apply hrid
          rw [← hm, hEq]
          exact List.mem_map_of_mem _ hr'
        rw [hcast, applyQs_not_mem _ rs q hnm, applyQs_cons_pos (k : Int) r rs q hm,
          setSeq_self q _ hqe]
      · rw [hcast, applyQs_cons_neg (k : Int) r rs q hm]

/-! ### The Sequencer: main characterisation -/

/-- The fetched thread snapshot is a permutation of the thread's rows. -/
theorem get_by_thread_perm (db : DB) (tid : Nat) :
    List.Perm (QuestionManager.get_by_thread db tid) (QuestionManager.threadRows db tid) :=
  List.perm_insertionSort _ _

/-- Rows of the thread snapshot are rows of the store. -/
theorem get_by_thread_subset (db : DB) (tid : Nat) (q : QuestionRow)
    (h : q ∈ QuestionManager.get_by_thread db tid) : q ∈ db.questions :=
  List.mem_of_mem_filter ((get_by_thread_perm db tid).subset h)

/-- In a well-formed store, the thread snapshot has distinct keys. -/
theorem get_by_thread_nodup_qid (db : DB) (tid : Nat) (h : WFq db) :
    ((QuestionManager.get_by_thread db tid).map (fun q => q.question_id)).Nodup := by
  have hsub : List.Sublist
      ((QuestionManager.threadRows db tid).map (fun q => q.question_id))
      (db.questions.map (fun q => q.question_id)) :=
    (List.filter_sublist db.questions).map _
  have h1 : ((QuestionManager.threadRows db tid).map (fun q => q.question_id)).Nodup :=
    h.1.sublist hsub
  exact (((get_by_thread_perm db tid).map _).nodup_iff).mpr h1

/-- A list that is a permutation of a renumbered snapshot sorts to
exactly that renumbered snapshot. -/
theorem insertionSort_eq_renumber (l : List QuestionRow) (k : Int) (qs : List QuestionRow)
    (hp : List.Perm l (renumber k qs)) :
    List.insertionSort (fun a b => a.sequence_number ≤ b.sequence_number) l
      = renumber k qs := by
  have hlt := renumber_pairwise_lt k qs
  have hnk : ((renumber k qs).map (fun q => q.sequence_number)).Nodup := by
    have : ((renumber k qs).map (fun q => q.sequence_number)).Pairwise (fun a b => a ≠ b) :=
      List.pairwise_map.mpr (hlt.imp ne_of_lt)
    exact this
  refine eq_of_perm_sorted_keys (fun q => q.sequence_number) _ _
    ((List.perm_insertionSort _ l).trans hp) ?_ hlt
  refine pairwise_lt_of_le_nodup (fun q : QuestionRow => q.sequence_number)
    (List.insertionSort (fun a b => a.sequence_number ≤ b.sequence_number) l)
    (sorted_by_key (fun q : QuestionRow => q.sequence_number) l) ?_
  exact ((((List.perm_insertionSort _ l).trans hp).map _).nodup_iff).mpr hnk

/-- Reading a thread back after one Sequencer run returns the prior
snapshot renumbered 1..N. -/
theorem reorder_get (db : DB) (tid : Nat) (h : WFq db) :
    QuestionManager.get_by_thread (QuestionManager.reorder db tid).1 tid
      = renumber 1 (QuestionManager.get_by_thread db tid) := by
  by_cases he : (QuestionManager.get_by_thread db tid).isEmpty
  · have hnil : QuestionManager.get_by_thread db tid = [] := by
      simpa [List.isEmpty_iff] using he
    simp [QuestionManager.reorder, hnil, renumber]
  · have h1 := get_by_thread_nodup_qid db tid h
    have h2 : ∀ r ∈ QuestionManager.get_by_thread db tid, ∀ q ∈ db.questions,
        q.question_id = r.question_id → q.sequence_number = r.sequence_number := by
      intro r hr q hq heq
      have hrq : r ∈ db.questions := get_by_thread_subset db tid r hr
      rw [List.inj_on_of_nodup_map h.1 hq hrq heq]
    have hQ : (QuestionManager.reorder db tid).1.questions
        = db.questions.map (applyQs 1 (QuestionManager.get_by_thread db tid)) := by
      have := reorderLoop_questions (QuestionManager.get_by_thread db tid) db 1 0 h1 h2
      simp only [QuestionManager.reorder, he, Bool.false_eq_true, if_false]
      simpa using this
    show List.insertionSort _ (QuestionManager.threadRows (QuestionManager.reorder db tid).1 tid)
      = _
    unfold QuestionManager.threadRows
    rw [hQ, List.filter_map]
    have hpc : ((fun q => q.thread_id == tid)
          ∘ applyQs 1 (QuestionManager.get_by_thread db tid))
        = fun q => q.thread_id == tid := by
      funext q
      simp only [Function.comp_apply, applyQs_thread_id]
    rw [hpc]
    refine insertionSort_eq_renumber _ 1 _ ?_
    have hp1 : List.Perm (QuestionManager.threadRows db tid)
        (QuestionManager.get_by_thread db tid) := (get_by_thread_perm db tid).symm
    have hp2 := hp1.map (applyQs 1 (QuestionManager.get_by_thread db tid))
    rw [map_applyQs_self 1 _ h1] at hp2
    exact hp2

/-- The number of update calls one Sequencer run issues is the mismatch
count of the thread snapshot. -/
theorem reorder_writes (db : DB) (tid : Nat) :
    (QuestionManager.reorder db tid).2
      = countMism 1 (QuestionManager.get_by_thread db tid) := by
  by_cases he : (QuestionManager.get_by_thread db tid).isEmpty
  · have hnil : QuestionManager.get_by_thread db tid = [] := by
      simpa [List.isEmpty_iff] using he
    simp [QuestionManager.reorder, hnil, countMism]
  · simp only [QuestionManager.reorder, he, Bool.false_eq_true, if_false]
    simpa using reorderLoop_writes (QuestionManager.get_by_thread db tid) db 1 0

/-! ### Well-formedness preservation and delete support -/

/-- A store with the same question keys and counter as a well-formed
one is well-formed. -/
theorem WFq_of_map_qid_eq (db db' : DB) (h : WFq db)
    (hq : db'.questions.map (fun q => q.question_id)
        = db.questions.map (fun q => q.question_id))
    (hn : db'.next_question_id = db.next_question_id) : WFq db' := by
  constructor
  · rw [hq]
    exact h.1
  · intro q hqm
    have : q.question_id ∈ db.questions.map (fun q => q.question_id) := by
      rw [← hq]
      exact List.mem_map_of_mem _ hqm
    rcases List.mem_map.mp this with ⟨q0, hq0, he⟩
    rw [hn, ← he]
    exact h.2 q0 hq0

/-- One Sequencer run keeps the question keys, in table order. -/
theorem reorder_map_qid (db : DB) (tid : Nat) (h : WFq db) :
    (QuestionManager.reorder db tid).1.questions.map (fun q => q.question_id)
      = db.questions.map (fun q => q.question_id) := by
  by_cases he : (QuestionManager.get_by_thread db tid).isEmpty
  · have hnil : QuestionManager.get_by_thread db tid = [] := by
      simpa [List.isEmpty_iff] using he
    simp [QuestionManager.reorder, hnil]
  · have h1 := get_by_thread_nodup_qid db tid h
    have h2 : ∀ r ∈ QuestionManager.get_by_thread db tid, ∀ q ∈ db.questions,
        q.question_id = r.question_id → q.sequence_number = r.sequence_number := by
      intro r hr q hq heq
      have hrq : r ∈ db.questions := get_by_thread_subset db tid r hr
      rw [List.inj_on_of_nodup_map h.1 hq hrq heq]
    have hQ : (QuestionManager.reorder db tid).1.questions
        = db.questions.map (applyQs 1 (QuestionManager.get_by_thread db tid)) := by
      have := reorderLoop_questions (QuestionManager.get_by_thread db tid) db 1 0 h1 h2
      simp only [QuestionManager.reorder, he, Bool.false_eq_true, if_false]
      simpa using this
    rw [hQ, List.map_map]
    exact List.map_congr_left (fun q _ => by
      simp only [Function.comp_apply, applyQs_question_id])

/-- One Sequencer run keeps the SERIAL counter. -/
theorem reorder_next (db : DB) (tid : Nat) :
    (QuestionManager.reorder db tid).1.next_question_id = db.next_question_id := by
  by_cases he : (QuestionManager.get_by_thread db tid).isEmpty
  · simp [QuestionManager.reorder, he]
  · simp only [QuestionManager.reorder, he, Bool.false_eq_true, if_false]
    simpa using reorderLoop_next (QuestionManager.get_by_thread db tid) db 1 0

/-- One Sequencer run preserves well-formedness. -/
theorem WFq_reorder (db : DB) (tid : Nat) (h : WFq db) :
    WFq (QuestionManager.reorder db tid).1 :=
  WFq_of_map_qid_eq db _ h (reorder_map_qid db tid h) (reorder_next db tid)

/-- Removing rows preserves well-formedness. -/
theorem WFq_filter (db : DB) (p : QuestionRow → Bool) (h : WFq db) :
    WFq { db with questions := db.questions.filter p } := by
  constructor
  · exact h.1.sublist ((List.filter_sublist db.questions).map _)
  · intro q hq
    exact h.2 q (List.mem_of_mem_filter hq)

/-- Appending a fresh row at the SERIAL counter and bumping the counter
preserves well-formedness. -/
theorem WFq_snoc (db : DB) (row : QuestionRow) (h : WFq db)
    (hid : row.question_id = db.next_question_id) (clk : Nat) :
    WFq { db with questions := db.questions ++ [row],
                  next_question_id := db.next_question_id + 1, clock := clk } := by
  constructor
  · rw [List.map_append]
    refine List.Nodup.append h.1 (by simp) ?_
    intro a ha hb
    simp only [List.map_cons, List.map_nil, List.mem_singleton] at hb
    rcases List.mem_map.mp ha with ⟨q0, hq0, he⟩
    have := h.2 q0 hq0
    omega
  · intro q hq
    rcases List.mem_append.mp hq with hq | hq
    · have := h.2 q hq
      simp only []
      omega
    · simp only [List.mem_singleton] at hq
      subst hq
      simp only [hid]
      omega

/-- The question-page update call preserves the question keys. -/
theorem update_map_qid (db : DB) (question_id : Nat) (content : String)
    (reference_links : Option String) (updated_by : String) (sequence_number : Option Int) :
    (QuestionManager.update db question_id content reference_links updated_by
        sequence_number).questions.map (fun q => q.question_id)
      = db.questions.map (fun q => q.question_id) := by
  unfold QuestionManager.update
  rw [List.map_map]
  refine List.map_congr_left (fun q _ => ?_)
  simp only [Function.comp_apply]
  by_cases hm : (q.question_id == question_id) = true
  · rw [if_pos hm]
  · rw [if_neg hm]

/-- The question-page update call preserves well-formedness. -/
theorem WFq_update (db : DB) (question_id : Nat) (content : String)
    (reference_links : Option String) (updated_by : String) (sequence_number : Option Int)
    (h : WFq db) :
    WFq (QuestionManager.update db question_id content reference_links updated_by
      sequence_number) :=
  WFq_of_map_qid_eq db _ h
    (update_map_qid db question_id content reference_links updated_by sequence_number) rfl

/-- In a list with distinct keys, filtering for a member's key returns
exactly that member. -/
theorem filter_qid_single : ∀ (l : List QuestionRow),
    (l.map (fun q => q.question_id)).Nodup →
    ∀ q ∈ l, l.filter (fun r => r.question_id == q.question_id) = [q]
  | [], _, q, hq => absurd hq (List.not_mem_nil q)
  | a :: l, hn, q, hq => by
    have hna : a.question_id ∉ l.map (fun q => q.question_id) :=
      (List.nodup_cons.mp hn).1
    have hnl : (l.map (fun q => q.question_id)).Nodup := (List.nodup_cons.mp hn).2
    rcases List.mem_cons.mp hq with rfl | hq'
    · rw [List.filter_cons, if_pos (beq_self_eq_true q.question_id)]
      have : l.filter (fun r => r.question_id == q.question_id) = [] := by
        refine List.filter_eq_nil_iff.mpr (fun r hr hb => hna ?_)
        rw [← beq_iff_eq.mp hb]
        exact List.mem_map_of_mem _ hr
      rw [this]
    · have hne : (a.question_id == q.question_id) = false := by
        refine beq_eq_false_iff_ne.mpr (fun hEq => hna ?_)
        rw [hEq]
        exact List.mem_map_of_mem _ hq'
      rw [List.filter_cons, hne]
      simp only [Bool.false_eq_true, if_false]
      exact filter_qid_single l hnl q hq'

/-- Removing a member of a list with distinct keys by its key drops
exactly one row. -/
theorem length_filter_ne_qid : ∀ (l : List QuestionRow),
    (l.map (fun q => q.question_id)).Nodup →
    ∀ q ∈ l, (l.filter (fun r => r.question_id != q.question_id)).length = l.length - 1
  | [], _, q, hq => absurd hq (List.not_mem_nil q)
  | a :: l, hn, q, hq => by
    have hna : a.question_id ∉ l.map (fun q => q.question_id) :=
      (List.nodup_cons.mp hn).1
    have hnl : (l.map (fun q => q.question_id)).Nodup := (List.nodup_cons.mp hn).2
    rcases List.mem_cons.mp hq with rfl | hq'
    · rw [List.filter_cons]
      rw [if_neg (by simp)]
      have : l.filter (fun r => r.question_id != q.question_id) = l := by
        refine List.filter_eq_self.mpr (fun r hr => ?_)
        have : r.question_id ≠ q.question_id := by
          intro hEq
          apply hna
          rw [← hEq]
          exact List.mem_map_of_mem _ hr
        simpa using this
      rw [this]
      simp
    · have hne : a.question_id ≠ q.question_id := by
        intro hEq
        apply hna
        rw [hEq]
        exact List.mem_map_of_mem _ hq'
      rw [List.filter_cons, if_pos (by simpa using hne)]
      simp only [List.length_cons, length_filter_ne_qid l hnl q hq']
      have hpos : 0 < l.length := List.length_pos.mpr (List.ne_nil_of_mem hq')
      omega

/-- A thread whose read-back equals a renumber-from-1 of some snapshot
is densely numbered. -/
theorem dense_of_renumber (db : DB) (tid : Nat) (qs : List QuestionRow)
    (h : QuestionManager.get_by_thread db tid = renumber 1 qs) :
    denseThread db tid := by
  unfold denseThread
  rw [h, renumber_map_seq, renumber_length]

/-- Deletion preserves well-formedness. -/
theorem WFq_delete (db : DB) (question_id : Nat) (h : WFq db) :
    WFq (QuestionManager.delete db question_id).1 := by
  unfold QuestionManager.delete
  cases hgbi : QuestionManager.get_by_id db question_id with
  | nil => simpa [hgbi] using h
  | cons q t =>
    simp only [hgbi]
    exact WFq_reorder _ _ (WFq_filter db _ h)

/-- Deleting an existing question reads back as the thread's snapshot
with that question removed, renumbered 1..N-1. -/
theorem delete_get (db : DB) (q : QuestionRow) (h : WFq db) (hq : q ∈ db.questions) :
    QuestionManager.get_by_thread (QuestionManager.delete db q.question_id).1 q.thread_id
      = renumber 1 ((QuestionManager.get_by_thread db q.thread_id).filter
          (fun r => r.question_id != q.question_id)) := by
  have hgbi : QuestionManager.get_by_id db q.question_id = [q] :=
    filter_qid_single db.questions h.1 q hq
  unfold QuestionManager.delete
  simp only [hgbi]
  rw [reorder_get _ _ (WFq_filter db _ h)]
  congr 1
  show List.insertionSort _ (QuestionManager.threadRows
      { db with questions := db.questions.filter (fun r => r.question_id != q.question_id) }
      q.thread_id) = _
  unfold QuestionManager.threadRows
  show List.insertionSort _ ((db.questions.filter
      (fun r => r.question_id != q.question_id)).filter
      (fun r => r.thread_id == q.thread_id)) = _
  rw [filter_swap]
  letI : IsTotal QuestionRow (fun a b => a.sequence_number ≤ b.sequence_number) :=
    ⟨fun a b => le_total _ _⟩
  letI : IsTrans QuestionRow (fun a b => a.sequence_number ≤ b.sequence_number) :=
    ⟨fun a b c hab hbc => le_trans hab hbc⟩
  rw [← filter_insertionSort]
  rfl

/-- Unfolding equation of create: the returned key is the SERIAL
counter and the resulting store is the inserted row followed by a
Sequencer run. -/
theorem create_eq (db : DB) (tid : Nat) (content reference_links created_by : String)
    (seqNew : Option Int) :
    QuestionManager.create db tid content reference_links created_by seqNew
      = (some db.next_question_id,
         (QuestionManager.reorder
           { db with
             questions := db.questions ++
               [({ question_id := db.next_question_id, thread_id := tid,
                   sequence_number := seqNew.getD (QuestionManager.nextSeq db tid),
                   content := content, reference_links := reference_links,
                   created_by := created_by, created_at := db.clock,
                   updated_by := "", updated_at := db.clock } : QuestionRow)],
             next_question_id := db.next_question_id + 1,
             clock := db.clock + 1 } tid).1) := by
  cases seqNew <;> rfl

/-! ### Claim theorems -/

/-- C9: running the Sequencer (QuestionManager.reorder) on a thread
with an empty question list issues no update calls and returns without
error, leaving the store untouched. -/
theorem c9_reorder_empty_noop (db : DB) (tid : Nat)
    (h : QuestionManager.get_by_thread db tid = []) :
    QuestionManager.reorder db tid = (db, 0) := by
  simp [QuestionManager.reorder, h]

/-- C9 witness: thread 1 of the empty store. -/
theorem c9_witness :
    QuestionManager.get_by_thread emptyDB 1 = []
    ∧ QuestionManager.reorder emptyDB 1 = (emptyDB, 0) :=
  ⟨rfl, c9_reorder_empty_noop emptyDB 1 rfl⟩

/-- C10: deleting a question_id for which no question exists performs
no delete call and no renumbering pass; the store is unchanged and the
operation returns without error. -/
theorem c10_delete_missing_noop (db : DB) (question_id : Nat)
    (h : ∀ q ∈ db.questions, q.question_id ≠ question_id) :
    QuestionManager.delete db question_id = (db, 0) := by
  have hgbi : QuestionManager.get_by_id db question_id = [] :=
    List.filter_eq_nil_iff.mpr (fun q hq hb => h q hq (beq_iff_eq.mp hb))
  unfold QuestionManager.delete
  simp only [hgbi]

/-- C10 witness: deleting the absent key 99 from a three-question
store. -/
theorem c10_witness :
    (∀ q ∈ dbEx1.questions, q.question_id ≠ 99)
    ∧ QuestionManager.delete dbEx1 99 = (dbEx1, 0) :=
  ⟨by decide, c10_delete_missing_noop dbEx1 99 (by decide)⟩

/-- C2: the Sequencer is idempotent: in a well-formed store, a second
consecutive run of QuestionManager.reorder issues zero update calls. -/
theorem c2_sequencer_idempotent (db : DB) (tid : Nat) (h : WFq db) :
    (QuestionManager.reorder (QuestionManager.reorder db tid).1 tid).2 = 0 := by
  rw [reorder_writes, reorder_get db tid h]
  simpa using countMism_renumber 1 (QuestionManager.get_by_thread db tid)

/-- C2 witness: a thread with scattered sequence numbers 5, 2, 9. -/
theorem c2_witness :
    WFq dbEx1
    ∧ (QuestionManager.reorder (QuestionManager.reorder dbEx1 1).1 1).2 = 0 :=
  ⟨by decide, c2_sequencer_idempotent dbEx1 1 (by decide)⟩

/-- C1: in a well-formed store, one Sequencer run rewrites a thread's
stored sequence numbers to the dense run 1..N while keeping the
questions' relative order (the read-back keys are unchanged); and
deleting one question of the thread followed by a Sequencer run yields
the remaining N-1 questions, in the original relative order, numbered
1..N-1. -/
theorem c1_sequencer_dense_run (db : DB) (tid : Nat) (h : WFq db) :
    ((QuestionManager.get_by_thread (QuestionManager.reorder db tid).1 tid).map
        (fun q => q.question_id)
      = (QuestionManager.get_by_thread db tid).map (fun q => q.question_id)
    ∧ (QuestionManager.get_by_thread (QuestionManager.reorder db tid).1 tid).map
        (fun q => q.sequence_number)
      = (List.range (QuestionManager.get_by_thread db tid).length).map
          (fun i : Nat => (i : Int) + 1))
    ∧ ∀ q ∈ db.questions, q.thread_id = tid →
      ((QuestionManager.get_by_thread
          (QuestionManager.reorder (QuestionManager.delete db q.question_id).1 tid).1 tid).map
            (fun r => r.question_id)
        = ((QuestionManager.get_by_thread db tid).filter
            (fun r => r.question_id != q.question_id)).map (fun r => r.question_id)
      ∧ (QuestionManager.get_by_thread
          (QuestionManager.reorder (QuestionManager.delete db q.question_id).1 tid).1
          tid).length
        = (QuestionManager.get_by_thread db tid).length - 1
      ∧ (QuestionManager.get_by_thread
          (QuestionManager.reorder (QuestionManager.delete db q.question_id).1 tid).1 tid).map
            (fun r => r.sequence_number)
        = (List.range ((QuestionManager.get_by_thread db tid).length - 1)).map
            (fun i : Nat => (i : Int) + 1)) := by
  constructor
  · constructor
    · rw [reorder_get db tid h, renumber_map_qid]
    · rw [reorder_get db tid h, renumber_map_seq]
  · intro q hq htid
    subst htid
    have hdel := delete_get db q h hq
    have hwf2 : WFq (QuestionManager.delete db q.question_id).1 :=
      WFq_delete db q.question_id h
    have houter := reorder_get _ q.thread_id hwf2
    rw [hdel, renumber_renumber] at houter
    have hqmem : q ∈ QuestionManager.get_by_thread db q.thread_id := by
      refine (get_by_thread_perm db q.thread_id).mem_iff.mpr ?_
      exact List.mem_filter.mpr ⟨hq, by simp⟩
    have hlen := length_filter_ne_qid (QuestionManager.get_by_thread db q.thread_id)
      (get_by_thread_nodup_qid db q.thread_id h) q hqmem
    refine ⟨?_, ?_, ?_⟩
    · rw [houter, renumber_map_qid]
    · rw [houter, renumber_length, hlen]
    · rw [houter, renumber_map_seq, hlen]

/-- C1 witness: thread 1 of a three-question store with scattered
sequence numbers 5, 2, 9. -/
theorem c1_witness :
    WFq dbEx1
    ∧ (((QuestionManager.get_by_thread (QuestionManager.reorder dbEx1 1).1 1).map
          (fun q => q.question_id)
        = (QuestionManager.get_by_thread dbEx1 1).map (fun q => q.question_id)
      ∧ (QuestionManager.get_by_thread (QuestionManager.reorder dbEx1 1).1 1).map
          (fun q => q.sequence_number)
        = (List.range (QuestionManager.get_by_thread dbEx1 1).length).map
            (fun i : Nat => (i : Int) + 1))
      ∧ ∀ q ∈ dbEx1.questions, q.thread_id = 1 →
        ((QuestionManager.get_by_thread
            (QuestionManager.reorder (QuestionManager.delete dbEx1 q.question_id).1 1).1 1).map
              (fun r => r.question_id)
          = ((QuestionManager.get_by_thread dbEx1 1).filter
              (fun r => r.question_id != q.question_id)).map (fun r => r.question_id)
        ∧ (QuestionManager.get_by_thread
            (QuestionManager.reorder (QuestionManager.delete dbEx1 q.question_id).1 1).1
            1).length
          = (QuestionManager.get_by_thread dbEx1 1).length - 1
        ∧ (QuestionManager.get_by_thread
            (QuestionManager.reorder (QuestionManager.delete dbEx1 q.question_id).1 1).1 1).map
              (fun r => r.sequence_number)
          = (List.range ((QuestionManager.get_by_thread dbEx1 1).length - 1)).map
              (fun i : Nat => (i : Int) + 1))) :=
  ⟨by decide, c1_sequencer_dense_run dbEx1 1 (by decide)⟩

/-- C3 counterexample: QuestionManager.update itself triggers no
renumbering pass: updating the sole question of a dense thread to
sequence number 2 leaves the stored numbers at [2], which is not the
dense run 1..1, so the claim that the thread is dense after an update
that changed sequence_number fails. -/
theorem c3_counterexample :
    WFq dbC3
    ∧ denseThread dbC3 1
    ∧ (QuestionManager.get_by_thread
        (QuestionManager.update dbC3 1 "q" none "" (some 2)) 1).map
          (fun q => q.sequence_number) = [2]
    ∧ ¬ denseThread (QuestionManager.update dbC3 1 "q" none "" (some 2)) 1 := by
  decide

/-- C3 (amended): the renumbering pass is triggered inside
QuestionManager.create and QuestionManager.delete, after which the
thread is densely numbered 1..N; QuestionManager.update issues no
renumbering itself and can leave the thread non-dense, and the question
page instead calls QuestionManager.reorder after every update, after
which the thread is dense again. -/
theorem c3_amended_retrigger (db : DB) (tid : Nat)
    (content reference_links created_by : String) (seqNew : Option Int)
    (question_id : Nat) (content2 : String) (reference_links2 : Option String)
    (updated_by2 : String) (seq2 : Option Int) (h : WFq db) :
    denseThread (QuestionManager.create db tid content reference_links created_by seqNew).2 tid
    ∧ (∀ q ∈ db.questions,
        denseThread (QuestionManager.delete db q.question_id).1 q.thread_id)
    ∧ denseThread (QuestionManager.reorder
        (QuestionManager.update db question_id content2 reference_links2 updated_by2 seq2)
        tid).1 tid := by
  refine ⟨?_, ?_, ?_⟩
  · rw [create_eq]
    exact dense_of_renumber _ tid _ (reorder_get _ tid (WFq_snoc db _ h rfl (db.clock + 1)))
  · intro q hq
    exact dense_of_renumber _ _ _ (delete_get db q h hq)
  · exact dense_of_renumber _ tid _ (reorder_get _ tid
      (WFq_update db question_id content2 reference_links2 updated_by2 seq2 h))

/-- C3 witness: create, delete and update-then-reorder on a
three-question store. -/
theorem c3_witness :
    WFq dbEx1
    ∧ (denseThread (QuestionManager.create dbEx1 1 "new" "" "" none).2 1
      ∧ (∀ q ∈ dbEx1.questions,
          denseThread (QuestionManager.delete dbEx1 q.question_id).1 q.thread_id)
      ∧ denseThread (QuestionManager.reorder
          (QuestionManager.update dbEx1 2 "c" none "" (some 7)) 1).1 1) :=
  ⟨by decide, c3_amended_retrigger dbEx1 1 "new" "" "" none 2 "c" none "" (some 7) (by decide)⟩

/-- C4 counterexample: neither EvaluationManager.create nor
EvaluationManager.update performs dimension validation: creating an
evaluation whose dimension "Bogus" is outside the fixed set is not
rejected — it returns the new key and stores a row retrievable by
get_by_answer — and updating an existing evaluation's dimension to
"Bogus" likewise writes it through. -/
theorem c4_counterexample :
    ¬ ("Bogus" ∈ FIXED_DIMENSIONS)
    ∧ (EvaluationManager.create emptyDB 5 "Bogus" 7 "" "" "").1 = some 1
    ∧ (EvaluationManager.get_by_answer
        (EvaluationManager.create emptyDB 5 "Bogus" 7 "" "" "").2 5).map
          (fun e => (e.dimension, e.score)) = [("Bogus", 7)]
    ∧ EvaluationManager.get_dimensions_for_answer
        (EvaluationManager.update dbTwoOfSeven 1 (some "Bogus") none none none "") 1
      = ["Bogus", "Reasoning"] := by
  decide

/-- C4 (amended): EvaluationManager.create and EvaluationManager.update
store any dimension string without validation — the create succeeds and
the dimension is recorded whether or not it lies in the fixed set, and
an update supplying a dimension rewrites exactly the matching rows'
dimension to the given string, rejecting nothing; creating an
evaluation with a valid dimension and score 7 on an answer with no
prior evaluations stores exactly that (dimension, score) pair
retrievable by get_by_answer. -/
theorem c4_amended_no_validation (db : DB) (answer_id : Nat) (dimension : String)
    (score : Rat) (comments evaluator created_by : String)
    (evaluation_id2 : Nat) (dimension2 : String) (score2 : Option Rat)
    (comments2 evaluator2 : Option String) (updated_by2 : String) :
    (EvaluationManager.create db answer_id dimension score comments evaluator created_by).1
      = some db.next_evaluation_id
    ∧ EvaluationManager.get_dimensions_for_answer
        (EvaluationManager.create db answer_id dimension score comments evaluator
          created_by).2 answer_id
      = EvaluationManager.get_dimensions_for_answer db answer_id ++ [dimension]
    ∧ ((∀ e ∈ db.evaluations, e.answer_id ≠ answer_id) →
        (EvaluationManager.get_by_answer
          (EvaluationManager.create db answer_id dimension score comments evaluator
            created_by).2 answer_id).map (fun e => (e.dimension, e.score))
          = [(dimension, score)])
    ∧ (EvaluationManager.update db evaluation_id2 (some dimension2) score2 comments2
          evaluator2 updated_by2).evaluations.map
        (fun e => (e.evaluation_id, e.dimension))
      = db.evaluations.map
          (fun e => (e.evaluation_id,
            if e.evaluation_id == evaluation_id2 then dimension2 else e.dimension)) := by
  refine ⟨rfl, ?_, ?_, ?_⟩
  · unfold EvaluationManager.get_dimensions_for_answer EvaluationManager.create
    simp [List.filter_append]
  · intro hnone
    have hfil : db.evaluations.filter (fun e => e.answer_id == answer_id) = [] :=
      List.filter_eq_nil_iff.mpr (fun e he hb => hnone e he (beq_iff_eq.mp hb))
    unfold EvaluationManager.get_by_answer EvaluationManager.create
    simp [List.filter_append, hfil]
  · unfold EvaluationManager.update
    rw [List.map_map]
    refine List.map_congr_left (fun e _ => ?_)
    simp only [Function.comp_apply]
    by_cases hm : (e.evaluation_id == evaluation_id2) = true
    · rw [if_pos hm, if_pos hm]
      rfl
    · rw [if_neg hm, if_neg hm]

/-- C4 witness: a valid dimension with score 7 created on a fresh
answer, and an update rewriting a stored evaluation's dimension. -/
theorem c4_witness :
    (∀ e ∈ emptyDB.evaluations, e.answer_id ≠ 1)
    ∧ ("Relevance" ∈ FIXED_DIMENSIONS)
    ∧ (EvaluationManager.get_by_answer
        (EvaluationManager.create emptyDB 1 "Relevance" 7 "" "" "").2 1).map
          (fun e => (e.dimension, e.score)) = [("Relevance", 7)]
    ∧ (EvaluationManager.update dbTwoOfSeven 1 (some "Completeness") none none none
          "").evaluations.map (fun e => (e.evaluation_id, e.dimension))
      = dbTwoOfSeven.evaluations.map
          (fun e => (e.evaluation_id,
            if e.evaluation_id == 1 then "Completeness" else e.dimension)) :=
  ⟨by decide, by decide,
   (c4_amended_no_validation emptyDB 1 "Relevance" 7 "" "" ""
      1 "Completeness" none none none "").2.2.1 (by decide),
   (c4_amended_no_validation dbTwoOfSeven 1 "Relevance" 7 "" "" ""
      1 "Completeness" none none none "").2.2.2⟩

/-- C5: get_missing_dimensions_for_answer returns the set-difference
between the fixed seven-dimension set and the dimensions already
recorded for the answer, in fixed-set order; on an answer with 2 of the
7 dimensions recorded it returns the other 5. -/
theorem c5_missing_dimensions (db : DB) (answer_id : Nat) :
    get_missing_dimensions_for_answer db answer_id
      = FIXED_DIMENSIONS.filter
          (fun d => ¬ d ∈ EvaluationManager.get_dimensions_for_answer db answer_id)
    ∧ List.Sublist (get_missing_dimensions_for_answer db answer_id) FIXED_DIMENSIONS
    ∧ (∀ d, d ∈ get_missing_dimensions_for_answer db answer_id
        ↔ (d ∈ FIXED_DIMENSIONS
            ∧ ¬ d ∈ EvaluationManager.get_dimensions_for_answer db answer_id))
    ∧ get_missing_dimensions_for_answer dbTwoOfSeven 1
      = ["Accuracy/Correctness", "Completeness", "Hallucination", "Verbose",
         "Additional Comments"] := by
  refine ⟨rfl, List.filter_sublist _, fun d => ?_, by decide⟩
  unfold get_missing_dimensions_for_answer
  simp [List.mem_filter]

/-- C6: every list operation of the Record Store returns rows ordered
by the entity's natural key: name for personas, categories and threads,
sequence_number for questions, creation time for answers, and dimension
for evaluations. -/
theorem c6_list_orderings (db : DB)
    (persona_id category_id thread_id question_id answer_id : Nat) :
    List.Sorted (fun a b : PersonaRow => a.name ≤ b.name) (PersonaManager.get_all db)
    ∧ List.Sorted (fun a b : CategoryRow => a.name ≤ b.name)
        (CategoryManager.get_by_persona db persona_id)
    ∧ List.Sorted (fun a b : ThreadRow => a.name ≤ b.name)
        (ThreadManager.get_by_category db category_id)
    ∧ List.Sorted (fun a b : QuestionRow => a.sequence_number ≤ b.sequence_number)
        (QuestionManager.get_by_thread db thread_id)
    ∧ List.Sorted (fun a b : AnswerRow => a.created_at ≤ b.created_at)
        (AnswerManager.get_by_question db question_id)
    ∧ List.Sorted (fun a b : EvaluationRow => a.dimension ≤ b.dimension)
        (EvaluationManager.get_by_answer db answer_id) :=
  ⟨sorted_by_key (fun p : PersonaRow => p.name) _,
   sorted_by_key (fun c : CategoryRow => c.name) _,
   sorted_by_key (fun t : ThreadRow => t.name) _,
   sorted_by_key (fun q : QuestionRow => q.sequence_number) _,
   sorted_by_key (fun a : AnswerRow => a.created_at) _,
   sorted_by_key (fun e : EvaluationRow => e.dimension) _⟩

/-- C7: a patch (update) or delete request with no filter clause is
rejected by supabase_request before any network call: the result is the
failure signal None, zero network calls are made, one error is
reported, and the server state is untouched. -/
theorem c7_mutation_requires_filter {σ α : Type} (method : String)
    (doRequest : σ → HttpResult α × σ) (s : σ)
    (h : pyLower method = "patch" ∨ pyLower method = "delete") :
    (supabase_request method [] doRequest s).result = none
    ∧ (supabase_request method [] doRequest s).networkCalls = 0
    ∧ (supabase_request method [] doRequest s).errors.length = 1
    ∧ (supabase_request method [] doRequest s).state = s := by
  rcases h with h | h <;> simp [supabase_request, h]

/-- C7 witness: an uppercase PATCH with empty params against a server
that would answer 200. -/
theorem c7_witness :
    (pyLower "PATCH" = "patch" ∨ pyLower "PATCH" = "delete")
    ∧ ((supabase_request "PATCH" []
          (fun s : Nat => (HttpResult.success 200 (0 : Nat), s)) 0).result = none
      ∧ (supabase_request "PATCH" []
          (fun s : Nat => (HttpResult.success 200 (0 : Nat), s)) 0).networkCalls = 0
      ∧ (supabase_request "PATCH" []
          (fun s : Nat => (HttpResult.success 200 (0 : Nat), s)) 0).errors.length = 1
      ∧ (supabase_request "PATCH" []
          (fun s : Nat => (HttpResult.success 200 (0 : Nat), s)) 0).state = 0) :=
  ⟨Or.inl (by decide),
   c7_mutation_requires_filter "PATCH" (fun s : Nat => (HttpResult.success 200 (0 : Nat), s)) 0
     (Or.inl (by decide))⟩

/-- C8: a write that fails at the transport level (a raised exception)
or at the server level (status 400 or above) makes supabase_request
return the explicit failure signal None instead of raising, and when
the failing request did not change the server state the caller's state
is unchanged; a not-found read returns the empty collection rather than
an error. -/
theorem c8_failure_signals {σ α : Type} (method : String) (params : List (String × String))
    (doRequest : σ → HttpResult α × σ) (s : σ) (db : DB) (persona_id : Nat) :
    (∀ msg, doRequest s = (HttpResult.exn msg, s) →
      (supabase_request method params doRequest s).result = none
      ∧ (supabase_request method params doRequest s).state = s)
    ∧ (∀ status body, 400 ≤ status → doRequest s = (HttpResult.success status body, s) →
      (supabase_request method params doRequest s).result = none
      ∧ (supabase_request method params doRequest s).state = s)
    ∧ ((∀ p ∈ db.personas, p.persona_id ≠ persona_id) →
      PersonaManager.get_by_id db persona_id = []) := by
  refine ⟨?_, ?_, ?_⟩
  · intro msg hmsg
    unfold supabase_request
    repeat' split
    all_goals simp_all [handleResponse]
  · intro status body hstatus hreq
    unfold supabase_request
    repeat' split
    all_goals simp_all [handleResponse]
  · intro hnone
    exact List.filter_eq_nil_iff.mpr (fun p hp hb => hnone p hp (beq_iff_eq.mp hb))

/-- C8 witness: a POST whose transport raises, and a lookup of an
absent persona. -/
theorem c8_witness :
    ((supabase_request "post" []
        (fun s : Nat => ((HttpResult.exn "boom" : HttpResult Nat), s)) 0).result = none
      ∧ (supabase_request "post" []
          (fun s : Nat => ((HttpResult.exn "boom" : HttpResult Nat), s)) 0).state = 0)
    ∧ PersonaManager.get_by_id emptyDB 3 = [] :=
  ⟨(c8_failure_signals "post" []
      (fun s : Nat => ((HttpResult.exn "boom" : HttpResult Nat), s)) 0 emptyDB 3).1 "boom" rfl,
   (c8_failure_signals "post" []
      (fun s : Nat => ((HttpResult.exn "boom" : HttpResult Nat), s)) 0 emptyDB 3).2.2
     (by decide)⟩
